import Mathlib

/-!
# Lab3_mutex: a two-field structure guarded by two mutexes, and its benchmark harness

Shallow embedding of `variant_17.cpp`.

* `OptimizedStructure` is the pair of `int` fields.  The two `std::mutex` members hold no
  data; a member function is embedded as the state transformer it performs while it holds
  the lock, so the development describes one thread at a time.
* `worker` is the command interpreter run by each thread.
* `load_commands`, `generate_command_file` are embedded over a file given as its sequence
  of characters.
* `run_test` and the sweep of `main` are embedded by explicit state passing over a `World`
  that records the observable actions.
-/

namespace Lab3Mutex

/-! ## OptimizedStructure -/

/-- The data members `int field0, field1` of `class OptimizedStructure`. -/
structure OptimizedStructure where
  field0 : Int
  field1 : Int
deriving DecidableEq

namespace OptimizedStructure

/-- The constructor `OptimizedStructure() : field0(0), field1(0)`. -/
def new : OptimizedStructure :=
  { field0 := 0, field1 := 0 }

/-- The member `void write(int fieldIndex, int value)`. -/
def write (s : OptimizedStructure) (fieldIndex value : Int) : OptimizedStructure :=
  if fieldIndex = 0 then
    { s with field0 := value }
  else if fieldIndex = 1 then
    { s with field1 := value }
  else
    s

/-- The member `int read(int fieldIndex)`: the returned value and the state afterwards. -/
def read (s : OptimizedStructure) (fieldIndex : Int) : Int × OptimizedStructure :=
  if fieldIndex = 0 then
    (s.field0, s)
  else if fieldIndex = 1 then
    (s.field1, s)
  else
    (-1, s)

end OptimizedStructure

/-- What `ostream << int` inserts: the decimal digits, preceded by `-` below zero. -/
def ostream_int : Int → String
  | Int.ofNat m => Nat.repr m
  | Int.negSucc m => "-" ++ Nat.repr (m + 1)

/-- The member `operator string()`: both fields are copied, then streamed into a
`stringstream` piece by piece; the returned string and the state afterwards. -/
def OptimizedStructure.operator_string (s : OptimizedStructure) :
    String × OptimizedStructure :=
  let f0 := s.field0
  let f1 := s.field1
  let ss := ""
  let ss := ss ++ "["
  let ss := ss ++ ostream_int f0
  let ss := ss ++ ", "
  let ss := ss ++ ostream_int f1
  let ss := ss ++ "]"
  (ss, s)

/-! ## worker -/

/-- The variables live in the loop of `worker`: the shared structure and the two locals. -/
structure WorkerState where
  shared : OptimizedStructure
  read_result : Int
  string_result : String
deriving DecidableEq

/-- One iteration of the `for (const string& cmd_line : commands)` loop of `worker`. -/
def worker_body (w : WorkerState) (cmd_line : String) : WorkerState :=
  if cmd_line = "read 0" then
    let r := w.shared.read 0
    { w with shared := r.2, read_result := r.1 }
  else if cmd_line = "read 1" then
    let r := w.shared.read 1
    { w with shared := r.2, read_result := r.1 }
  else if cmd_line = "write 0 1" then
    { w with shared := w.shared.write 0 1 }
  else if cmd_line = "write 1 1" then
    { w with shared := w.shared.write 1 1 }
  else if cmd_line = "string" then
    let r := w.shared.operator_string
    { w with shared := r.2, string_result := r.1 }
  else
    w

/-- The loop of `worker`, started with `read_result = 0` and an empty `string_result`. -/
def worker_loop (shared : OptimizedStructure) (commands : List String) : WorkerState :=
  commands.foldl worker_body { shared := shared, read_result := 0, string_result := "" }

/-- The function `worker`: the locals are discarded, the structure is what remains. -/
def worker (shared : OptimizedStructure) (commands : List String) : OptimizedStructure :=
  (worker_loop shared commands).shared

/-- The five command tokens of the workload file format. -/
def recognized (cmd_line : String) : Bool :=
  cmd_line = "read 0" || cmd_line = "read 1" || cmd_line = "write 0 1" ||
    cmd_line = "write 1 1" || cmd_line = "string"

/-- The four snapshots of a structure whose fields are 0 or 1. -/
def binary_snapshots : List String :=
  ["[0, 0]", "[1, 0]", "[0, 1]", "[1, 1]"]

/-! ## The partition loop of run_test -/

/-- The iterator arithmetic of pass `i` of the partition loop, as offsets from
`all_commands.begin()`: `block_size = size / num_threads`, `start_it = i * block_size`,
`end_it = (i == num_threads - 1) ? end() : start_it + block_size`.  The offsets are
`size_t` values in the source; they never exceed `size`, so no product or sum wraps. -/
def block_bounds (size num_threads i : Nat) : Nat × Nat :=
  let block_size := size / num_threads
  let start_it := i * block_size
  let end_it := if i = num_threads - 1 then size else start_it + block_size
  (start_it, end_it)

/-- The call `thread_commands[i].assign(start_it, end_it)` on iterators of `v`: the
elements at the offsets `first`, ..., `last - 1`.  It is defined only for a valid range,
`first ≤ last ≤ v.size()`. -/
def assign_range (v : List String) (first last : Nat) : Option (List String) :=
  if first ≤ last ∧ last ≤ v.length then
    some ((v.drop first).take (last - first))
  else
    none

/-- Lines 176 to 184 of `run_test`: the vector `thread_commands` after the partition loop.
`none` stands for undefined behaviour (division by zero for `num_threads = 0`, or an
invalid iterator range). -/
def partition_blocks (all_commands : List String) (num_threads : Nat) :
    Option (List (List String)) :=
  if num_threads = 0 then
    none
  else
    (List.range num_threads).mapM fun i =>
      let b := block_bounds all_commands.length num_threads i
      assign_range all_commands b.1 b.2

/-! ## The workload file -/

/-- The table `commands` of `generate_command_file`. -/
def commands : List String :=
  ["read 0", "write 0 1", "read 1", "write 1 1", "string"]

/-- One pass of the loop of `generate_command_file`, where `command_index` is the value
drawn from the five-weight distribution: `file << commands[command_index] << "\n"`. -/
def generate_body (file : List Char) (command_index : Fin 5) : List Char :=
  let file := file ++ (commands.get command_index).data
  let file := file ++ "\n".data
  file

/-- The characters `generate_command_file` writes, given the successive draws
`dist(gen)`. -/
def generate_command_text (draws : List (Fin 5)) : List Char :=
  draws.foldl generate_body []

/-- The call `getline(file, line)` on the characters still unread: `none` when the stream
fails (nothing is left to extract), otherwise the line without its newline and the
characters after it.  A last line that ends with the file and not with a newline is
returned as well. -/
def getline : List Char → Option (List Char × List Char)
  | [] => none
  | c :: cs =>
    if c = '\n' then
      some ([], cs)
    else
      match getline cs with
      | none => some ([c], [])
      | some (line, rest) => some (c :: line, rest)

/-- The loop `while (getline(file, line)) { if (!line.empty()) commands.push_back(line); }`
of `load_commands`, run for at most `fuel` passes; `none` when the fuel runs out. -/
def load_loop : Nat → List Char → List String → Option (List String)
  | 0, _, _ => none
  | fuel + 1, file, commands =>
    match getline file with
    | none => some commands
    | some (line, rest) =>
      if line.isEmpty then
        load_loop fuel rest commands
      else
        load_loop fuel rest (commands ++ [String.mk line])

/-- Lines 155 to 164 of `load_commands` on an opened file: `commands.clear()`, then the
line loop.  Every pass consumes at least one character, so `length + 1` passes suffice. -/
def load_lines (file : List Char) : Option (List String) :=
  load_loop (file.length + 1) file []

/-- The lines of a text, as the spec words them: the pieces between newlines. -/
def text_lines (text : List Char) : List (List Char) :=
  text.splitOn '\n'

/-! ## The harness: load_commands, run_test and the sweep of main -/

/-- The observable actions of the harness. -/
inductive Event where
  /-- The message `load_commands` writes to `cerr` when `filename` cannot be opened. -/
  | cerr_open_failed (filename : String)
  /-- The declaration `OptimizedStructure structure;` at the start of a trial. -/
  | construct_structure
  /-- The call `threads.emplace_back(worker, ref(structure), ref(thread_commands[i]))`. -/
  | thread_start (i : Nat) (thread_commands : List String)
  /-- The call `t.join()` on thread `i`. -/
  | thread_join (i : Nat)
  /-- The line `cout << time_ms << " мс"` of the sweep. -/
  | cout_time (filename : String) (num_threads : Nat) (time_ms : ℚ)
deriving DecidableEq

/-- What the harness acts on: the files that `ifstream` can open with their characters,
the successive readings of `high_resolution_clock::now()` in milliseconds, the number of
readings taken, and the actions performed so far. -/
structure World where
  fs : String → Option (List Char)
  clock : Nat → ℚ
  clock_reads : Nat
  log : List Event

namespace World

/-- Record an action. -/
def emit (w : World) (e : Event) : World :=
  { w with log := w.log ++ [e] }

/-- The call `chrono::high_resolution_clock::now()`. -/
def now (w : World) : ℚ × World :=
  (w.clock w.clock_reads, { w with clock_reads := w.clock_reads + 1 })

/-- The number of structures constructed so far, one per trial. -/
def trials (w : World) : Nat :=
  w.log.count Event.construct_structure

/-- The number of threads started so far. -/
def threads_started (w : World) : Nat :=
  w.log.countP fun e =>
    match e with
    | Event.thread_start _ _ => true
    | _ => false

/-- The number of open failures reported on `cerr` so far. -/
def open_failures (w : World) : Nat :=
  w.log.countP fun e =>
    match e with
    | Event.cerr_open_failed _ => true
    | _ => false

end World

/-- The function `load_commands(filename, commands)`: the returned flag, the vector
`commands` afterwards and the world afterwards.  `none` only if the line loop ran out of
fuel. -/
def load_commands (w : World) (filename : String) (commands : List String) :
    Option (Bool × List String × World) :=
  match w.fs filename with
  | none => some (false, commands, w.emit (Event.cerr_open_failed filename))
  | some file =>
    match load_lines file with
    | none => none
    | some loaded => some (true, loaded, w)

/-- The constant `RUNS` of `run_test`. -/
def RUNS : Nat := 3

/-- The first loop of a trial: one thread per block, in index order. -/
def start_threads : Nat → List (List String) → World → World
  | _, [], w => w
  | i, block :: blocks, w => start_threads (i + 1) blocks (w.emit (Event.thread_start i block))

/-- The second loop of a trial: `for (auto& t : threads) t.join();`. -/
def join_threads (num_threads : Nat) (w : World) : World :=
  (List.range num_threads).foldl (fun w i => w.emit (Event.thread_join i)) w

/-- One pass of the `for (int run = 0; run < RUNS; ++run)` loop of `run_test`: the new
`total_time` and the world afterwards.  The state the threads leave in `structure` is
destroyed with it at the end of the pass and is not part of the result. -/
def run_trial (thread_commands : List (List String)) (total_time : ℚ) (w : World) :
    ℚ × World :=
  let w := w.emit Event.construct_structure
  let start := w.now
  let w := start_threads 0 thread_commands start.2
  let w := join_threads thread_commands.length w
  let stop := w.now
  let run_time := stop.1 - start.1
  (total_time + run_time, stop.2)

/-- The trial loop of `run_test`, `runs` passes. -/
def run_trials (thread_commands : List (List String)) : Nat → ℚ → World → ℚ × World
  | 0, total_time, w => (total_time, w)
  | runs + 1, total_time, w =>
    let r := run_trial thread_commands total_time w
    run_trials thread_commands runs r.1 r.2

/-- The function `run_test(filename, num_threads)`: the returned `double` (as an exact
rational number of milliseconds) and the world afterwards.  `none` stands for undefined
behaviour in the partition loop. -/
def run_test (w : World) (filename : String) (num_threads : Nat) : Option (ℚ × World) :=
  match load_commands w filename [] with
  | none => none
  | some (false, _, w) => some (-1, w)
  | some (true, all_commands, w) =>
    match partition_blocks all_commands num_threads with
    | none => none
    | some thread_commands =>
      let r := run_trials thread_commands RUNS 0 w
      some (r.1 / RUNS, r.2)

/-- The vector `files` of `main`. -/
def files : List String :=
  ["var17.txt", "equal.txt", "custom.txt"]

/-- The vector `thread_counts` of `main`. -/
def thread_counts : List Nat :=
  [1, 2, 3]

/-- The inner loop of the sweep of `main` over the thread counts still to run: the row
`results[i]` and the world afterwards. -/
def sweep_thread_counts (filename : String) : List Nat → World → Option (List ℚ × World)
  | [], w => some ([], w)
  | num_threads :: rest, w =>
    match run_test w filename num_threads with
    | none => none
    | some (time_ms, w) =>
      match sweep_thread_counts filename rest
          (w.emit (Event.cout_time filename num_threads time_ms)) with
      | none => none
      | some (row, w) => some (time_ms :: row, w)

/-- The outer loop of the sweep of `main` over the files still to run: the table `results`
and the world afterwards. -/
def sweep_files (counts : List Nat) : List String → World → Option (List (List ℚ) × World)
  | [], w => some ([], w)
  | filename :: rest, w =>
    match sweep_thread_counts filename counts w with
    | none => none
    | some (row, w) =>
      match sweep_files counts rest w with
      | none => none
      | some (rows, w) => some (row :: rows, w)

/-- Lines 245 to 256 of `main`: every file with every thread count. -/
def main_sweep (w : World) : Option (List (List ℚ) × World) :=
  sweep_files thread_counts files w

/-- A world in which only `equal.txt` can be opened, holding two commands. -/
def world_equal_only : World where
  fs := fun name => if name = "equal.txt" then some "read 0\nstring\n".data else none
  clock := fun n => n
  clock_reads := 0
  log := []

/-! ## Theorems: OptimizedStructure -/

/-- C3. For every state with field values `f0` and `f1`, the string conversion returns
exactly `"[" + decimal(f0) + ", " + decimal(f1) + "]"` and changes neither field; on a
freshly constructed structure it returns `"[0, 0]"`, after `write(0,1)` then `write(1,1)`
it returns `"[1, 1]"`, and with the fields -12 and 340 it returns `"[-12, 340]"`. -/
theorem snapshot_format (s : OptimizedStructure) :
    s.operator_string.1 = "[" ++ ostream_int s.field0 ++ ", " ++ ostream_int s.field1 ++ "]"
      ∧ s.operator_string.2 = s
      ∧ OptimizedStructure.new.operator_string.1 = "[0, 0]"
      ∧ ((OptimizedStructure.new.write 0 1).write 1 1).operator_string.1 = "[1, 1]"
      ∧ (OptimizedStructure.mk (-12) 340).operator_string.1 = "[-12, 340]" := by
  refine ⟨?_, rfl, by decide, by decide, by decide⟩
  simp [OptimizedStructure.operator_string]

/-- C4. For every state, every field index `k` other than 0 and 1 and every value `v`,
`write(k, v)` leaves both fields unchanged, and `read(k)` returns the sentinel -1 and
leaves both fields unchanged; so does `write(2, 5)` followed by `read(2)`. -/
theorem unknown_field_tolerance (s : OptimizedStructure) (k v : Int)
    (h0 : k ≠ 0) (h1 : k ≠ 1) :
    s.write k v = s
      ∧ (s.read k).1 = -1
      ∧ (s.read k).2 = s
      ∧ ((s.write 2 5).read 2).1 = -1
      ∧ ((s.write 2 5).read 2).2 = s := by
  refine ⟨?_, ?_, ?_, ?_, ?_⟩
  · simp [OptimizedStructure.write, h0, h1]
  · simp [OptimizedStructure.read, h0, h1]
  · simp [OptimizedStructure.read, h0, h1]
  · simp [OptimizedStructure.write, OptimizedStructure.read]
  · simp [OptimizedStructure.write, OptimizedStructure.read]

/-- Witness of C4 at the state `[7, 9]`, index 2 and value 5. -/
theorem unknown_field_tolerance_witness :
    (OptimizedStructure.mk 7 9).write 2 5 = OptimizedStructure.mk 7 9
      ∧ ((OptimizedStructure.mk 7 9).read 2).1 = -1
      ∧ ((OptimizedStructure.mk 7 9).read 2).2 = OptimizedStructure.mk 7 9
      ∧ (((OptimizedStructure.mk 7 9).write 2 5).read 2).1 = -1
      ∧ (((OptimizedStructure.mk 7 9).write 2 5).read 2).2 = OptimizedStructure.mk 7 9 :=
  unknown_field_tolerance (OptimizedStructure.mk 7 9) 2 5 (by decide) (by decide)

/-- C5. For every state, every index `i` in {0, 1} and every value `v`: `write(i, v)`
sets field `i` to `v` and leaves the other field unchanged, so that a following `read(i)`
returns `v` and a following `read(1 - i)` returns what that field held before the write;
`read(i)` returns the current value of field `i` and changes neither field. -/
theorem write_read_per_field (s : OptimizedStructure) (i v : Int) (hi : i = 0 ∨ i = 1) :
    (i = 0 → (s.write i v).field0 = v ∧ (s.write i v).field1 = s.field1)
      ∧ (i = 1 → (s.write i v).field1 = v ∧ (s.write i v).field0 = s.field0)
      ∧ ((s.write i v).read i).1 = v
      ∧ ((s.write i v).read (1 - i)).1 = (if i = 0 then s.field1 else s.field0)
      ∧ (s.read i).1 = (if i = 0 then s.field0 else s.field1)
      ∧ (s.read i).2 = s := by
  rcases hi with rfl | rfl
  · simp [OptimizedStructure.write, OptimizedStructure.read]
  · simp [OptimizedStructure.write, OptimizedStructure.read]

/-- Witness of C5 at the state `[7, 9]`, index 1 and value 4. -/
theorem write_read_per_field_witness :
    ((1 : Int) = 0 → ((OptimizedStructure.mk 7 9).write 1 4).field0 = 4
        ∧ ((OptimizedStructure.mk 7 9).write 1 4).field1 = (OptimizedStructure.mk 7 9).field1)
      ∧ ((1 : Int) = 1 → ((OptimizedStructure.mk 7 9).write 1 4).field1 = 4
        ∧ ((OptimizedStructure.mk 7 9).write 1 4).field0 = (OptimizedStructure.mk 7 9).field0)
      ∧ (((OptimizedStructure.mk 7 9).write 1 4).read 1).1 = 4
      ∧ (((OptimizedStructure.mk 7 9).write 1 4).read (1 - 1)).1
          = (if (1 : Int) = 0 then (OptimizedStructure.mk 7 9).field1
              else (OptimizedStructure.mk 7 9).field0)
      ∧ ((OptimizedStructure.mk 7 9).read 1).1
          = (if (1 : Int) = 0 then (OptimizedStructure.mk 7 9).field0
              else (OptimizedStructure.mk 7 9).field1)
      ∧ ((OptimizedStructure.mk 7 9).read 1).2 = OptimizedStructure.mk 7 9 :=
  write_read_per_field (OptimizedStructure.mk 7 9) 1 4 (by decide)

/-! ## Theorems: worker -/

/-- A pass of the loop on an unrecognized string changes nothing. -/
theorem worker_body_unrecognized (w : WorkerState) (cmd_line : String)
    (h : recognized cmd_line = false) : worker_body w cmd_line = w := by
  simp only [recognized, Bool.or_eq_false_iff, decide_eq_false_iff_not] at h
  obtain ⟨⟨⟨⟨h1, h2⟩, h3⟩, h4⟩, h5⟩ := h
  simp [worker_body, h1, h2, h3, h4, h5]

/-- The loop skips unrecognized strings, whatever the state it is started in. -/
theorem foldl_worker_body_filter (commands : List String) (w : WorkerState) :
    commands.foldl worker_body w = (commands.filter recognized).foldl worker_body w := by
  induction commands generalizing w with
  | nil => rfl
  | cons c cs ih =>
    cases hc : recognized c with
    | true => simp [List.filter_cons, hc, ih]
    | false => simp [List.filter_cons, hc, ih, worker_body_unrecognized w c hc]

/-- What a pass of the loop does to the structure. -/
theorem worker_body_shared (w : WorkerState) (cmd_line : String) :
    (worker_body w cmd_line).shared =
      if cmd_line = "write 0 1" then { w.shared with field0 := 1 }
      else if cmd_line = "write 1 1" then { w.shared with field1 := 1 }
      else w.shared := by
  unfold worker_body
  split_ifs <;> simp_all [OptimizedStructure.write, OptimizedStructure.read,
    OptimizedStructure.operator_string]

/-- The fields after the loop, whatever the state it is started in. -/
theorem foldl_worker_body_fields (commands : List String) (w : WorkerState) :
    (commands.foldl worker_body w).shared.field0
        = (if "write 0 1" ∈ commands then 1 else w.shared.field0)
      ∧ (commands.foldl worker_body w).shared.field1
        = (if "write 1 1" ∈ commands then 1 else w.shared.field1) := by
  induction commands generalizing w with
  | nil => simp
  | cons c cs ih =>
    rw [List.foldl_cons]
    obtain ⟨ih0, ih1⟩ := ih (worker_body w c)
    rw [ih0, ih1, worker_body_shared]
    constructor
    · by_cases h0 : c = "write 0 1"
      · subst h0; simp
      · by_cases h1 : c = "write 1 1"
        · subst h1; simp
        · simp [h0, h1, List.mem_cons, eq_comm]
    · by_cases h0 : c = "write 0 1"
      · subst h0; simp
      · by_cases h1 : c = "write 1 1"
        · subst h1; simp
        · simp [h0, h1, List.mem_cons, eq_comm]

/-- The snapshot of a structure whose fields are 0 or 1. -/
theorem operator_string_binary (s : OptimizedStructure)
    (h0 : s.field0 = 0 ∨ s.field0 = 1) (h1 : s.field1 = 0 ∨ s.field1 = 1) :
    s.operator_string.1 ∈ binary_snapshots := by
  obtain ⟨f0, f1⟩ := s
  simp only at h0 h1
  rcases h0 with rfl | rfl <;> rcases h1 with rfl | rfl <;> decide

/-- The loop run on `pre ++ [cmd]` is the loop run on `pre` followed by one pass. -/
theorem worker_loop_snoc (shared : OptimizedStructure) (pre : List String) (cmd : String) :
    worker_loop shared (pre ++ [cmd]) = worker_body (worker_loop shared pre) cmd := by
  simp [worker_loop, List.foldl_append]

/-- C9. For every structure state and every list of command strings, `worker` leaves the
structure in the same state as on the list with every string other than the five
recognized tokens removed; a list of unrecognized strings only leaves the structure as it
was. -/
theorem worker_ignores_unrecognized (shared : OptimizedStructure) (cmds : List String) :
    worker shared cmds = worker shared (cmds.filter recognized)
      ∧ ((∀ c ∈ cmds, recognized c = false) → worker shared cmds = shared) := by
  have hfilter : worker shared cmds = worker shared (cmds.filter recognized) := by
    simp only [worker, worker_loop]
    rw [foldl_worker_body_filter]
  refine ⟨hfilter, fun hall => ?_⟩
  have hnil : cmds.filter recognized = [] := by
    rw [List.filter_eq_nil_iff]
    intro c hc
    simp [hall c hc]
  rw [hfilter, hnil]
  rfl

/-- Witness of C9 at the state `[3, 4]`: a list mixing tokens and other strings, and a
list of other strings only. -/
theorem worker_ignores_unrecognized_witness :
    (worker (OptimizedStructure.mk 3 4) ["write 0 1", "write 2 1", "", "read 7"]
        = worker (OptimizedStructure.mk 3 4)
            (["write 0 1", "write 2 1", "", "read 7"].filter recognized))
      ∧ worker (OptimizedStructure.mk 3 4) ["write 2 1", "", "read 7", "write 0 2"]
        = OptimizedStructure.mk 3 4 :=
  ⟨(worker_ignores_unrecognized (OptimizedStructure.mk 3 4)
      ["write 0 1", "write 2 1", "", "read 7"]).1,
   (worker_ignores_unrecognized (OptimizedStructure.mk 3 4)
      ["write 2 1", "", "read 7", "write 0 2"]).2 (by decide)⟩

/-- C10. For every structure state and every list of command strings, after `worker` has
run the list, `field0` is 1 if the list contains `"write 0 1"` and its initial value
otherwise, and `field1` is 1 if the list contains `"write 1 1"` and its initial value
otherwise; started on a freshly constructed structure both fields are 0 or 1, and the
snapshot taken by a `"string"` command at any position of the list is one of `"[0, 0]"`,
`"[1, 0]"`, `"[0, 1]"`, `"[1, 1]"`. -/
theorem worker_final_state (shared : OptimizedStructure) (cmds : List String) :
    (worker shared cmds).field0 = (if "write 0 1" ∈ cmds then 1 else shared.field0)
      ∧ (worker shared cmds).field1 = (if "write 1 1" ∈ cmds then 1 else shared.field1)
      ∧ ((worker OptimizedStructure.new cmds).field0 = 0
          ∨ (worker OptimizedStructure.new cmds).field0 = 1)
      ∧ ((worker OptimizedStructure.new cmds).field1 = 0
          ∨ (worker OptimizedStructure.new cmds).field1 = 1)
      ∧ (∀ pre post : List String, cmds = pre ++ "string" :: post →
          (worker_loop OptimizedStructure.new (pre ++ ["string"])).string_result
            ∈ binary_snapshots) := by
  have hfields : ∀ (s : OptimizedStructure) (l : List String),
      (worker s l).field0 = (if "write 0 1" ∈ l then 1 else s.field0)
        ∧ (worker s l).field1 = (if "write 1 1" ∈ l then 1 else s.field1) := by
    intro s l
    exact foldl_worker_body_fields l { shared := s, read_result := 0, string_result := "" }
  have hbin : ∀ l : List String,
      ((worker OptimizedStructure.new l).field0 = 0
          ∨ (worker OptimizedStructure.new l).field0 = 1)
        ∧ ((worker OptimizedStructure.new l).field1 = 0
          ∨ (worker OptimizedStructure.new l).field1 = 1) := by
    intro l
    rw [(hfields _ l).1, (hfields _ l).2]
    constructor <;> split_ifs <;> simp [OptimizedStructure.new]
  refine ⟨(hfields shared cmds).1, (hfields shared cmds).2, (hbin cmds).1, (hbin cmds).2, ?_⟩
  intro pre post _
  rw [worker_loop_snoc]
  have hsnap : (worker_body (worker_loop OptimizedStructure.new pre) "string").string_result
      = (worker OptimizedStructure.new pre).operator_string.1 := by
    simp [worker_body, worker]
  rw [hsnap]
  exact operator_string_binary _ (hbin pre).1 (hbin pre).2

/-- Witness of C10: the snapshot taken by the third command of a five-command list. -/
theorem worker_final_state_witness :
    (worker_loop OptimizedStructure.new (["write 1 1", "read 0"] ++ ["string"])).string_result
      ∈ binary_snapshots :=
  (worker_final_state OptimizedStructure.new
    ["write 1 1", "read 0", "string", "write 0 1", "string"]).2.2.2.2
    ["write 1 1", "read 0"] ["write 0 1", "string"] (by decide)

/-! ## Theorems: the partition loop -/

/-- A `mapM` in `Option` whose every step succeeds is a `map`. -/
theorem mapM_option_of_forall {α β : Type} (f : α → Option β) (g : α → β) (l : List α)
    (h : ∀ x ∈ l, f x = some (g x)) : l.mapM f = some (l.map g) := by
  induction l with
  | nil => rfl
  | cons a as ih =>
    rw [List.mapM_cons, h a (List.mem_cons_self a as),
      ih (fun x hx => h x (List.mem_cons_of_mem a hx))]
    rfl

/-- The first `k` full blocks of width `q`, concatenated, are the first `k * q` elements. -/
theorem flatten_range_take {α : Type} (v : List α) (q k : Nat) :
    ((List.range k).map fun i => (v.drop (i * q)).take q).flatten = v.take (k * q) := by
  induction k with
  | zero => simp
  | succ k ih =>
    rw [List.range_succ, List.map_append, List.flatten_append, ih, Nat.succ_mul, List.take_add]
    simp

/-- The start of the last block does not pass the end of the sequence. -/
theorem pred_mul_div_le (L T : Nat) : (T - 1) * (L / T) ≤ L :=
  calc (T - 1) * (L / T) ≤ T * (L / T) := Nat.mul_le_mul_right _ (Nat.sub_le T 1)
    _ ≤ L := Nat.mul_div_le L T

/-- The full blocks and the start of the last one make up `T * (L / T)`. -/
theorem pred_mul_add (q T : Nat) (hT : 1 ≤ T) : (T - 1) * q + q = T * q := by
  obtain ⟨n, rfl⟩ : ∃ n, T = n + 1 := ⟨T - 1, by omega⟩
  simp [Nat.succ_mul]

/-- Every pass of the partition loop builds a valid iterator range. -/
theorem block_bounds_valid (L T i : Nat) (hi : i < T) :
    (block_bounds L T i).1 ≤ (block_bounds L T i).2 ∧ (block_bounds L T i).2 ≤ L := by
  have hlast := pred_mul_div_le L T
  simp only [block_bounds]
  by_cases h : i = T - 1
  · subst h
    simpa using hlast
  · have hle : (i + 1) * (L / T) ≤ (T - 1) * (L / T) :=
      Nat.mul_le_mul_right _ (by omega)
    rw [Nat.succ_mul] at hle
    simp only [h, if_false]
    generalize L / T = q at hle hlast
    generalize (T - 1) * q = m at hle hlast
    generalize i * q = a at hle
    omega

/-- The slice of `v` that pass `i` of the partition loop assigns to `thread_commands[i]`. -/
theorem assign_range_block_bounds (v : List String) (T i : Nat) (hi : i < T) :
    assign_range v (block_bounds v.length T i).1 (block_bounds v.length T i).2
      = some (if i = T - 1 then v.drop ((T - 1) * (v.length / T))
          else (v.drop (i * (v.length / T))).take (v.length / T)) := by
  have hv := block_bounds_valid v.length T i hi
  rw [assign_range, if_pos hv]
  by_cases h : i = T - 1
  · subst h
    simp only [block_bounds, if_true]
    rw [List.take_of_length_le]
    simp
  · simp [block_bounds, h]

/-- The partition loop succeeds for at least one thread, with these blocks. -/
theorem partition_blocks_eq (v : List String) (T : Nat) (hT : 1 ≤ T) :
    partition_blocks v T = some ((List.range T).map fun i =>
      if i = T - 1 then v.drop ((T - 1) * (v.length / T))
      else (v.drop (i * (v.length / T))).take (v.length / T)) := by
  rw [partition_blocks, if_neg (by omega)]
  apply mapM_option_of_forall
  intro i hi
  exact assign_range_block_bounds v T i (List.mem_range.mp hi)

/-- The partition loop succeeds for at least one thread and builds one block per
thread. -/
theorem partition_blocks_length (v : List String) (T : Nat) (hT : 1 ≤ T) :
    ∃ blocks : List (List String), partition_blocks v T = some blocks ∧ blocks.length = T :=
  ⟨_, partition_blocks_eq v T hT, by simp⟩

/-- The blocks of the partition loop, spelled out: `T - 1` full blocks and the last one. -/
theorem partition_blocks_split (v : List String) (T : Nat) (hT : 1 ≤ T) :
    partition_blocks v T = some
      (((List.range (T - 1)).map fun i => (v.drop (i * (v.length / T))).take (v.length / T))
        ++ [v.drop ((T - 1) * (v.length / T))]) := by
  rw [partition_blocks_eq v T hT]
  obtain ⟨n, rfl⟩ : ∃ n, T = n + 1 := ⟨T - 1, by omega⟩
  rw [List.range_succ, List.map_append]
  simp only [Nat.add_sub_cancel, List.map_cons, List.map_nil, if_true]
  congr 2
  apply List.map_congr_left
  intro i hi
  have : i ≠ n := Nat.ne_of_lt (List.mem_range.mp hi)
  simp [this]

/-- Block `i < T - 1` of the spelled-out partition. -/
theorem split_getElem?_lt {α : Type} (f : Nat → List α) (x : List α) (n i : Nat)
    (hi : i < n) : (((List.range n).map f) ++ [x])[i]? = some (f i) := by
  rw [List.getElem?_append_left (by simpa using hi)]
  simp [List.getElem?_map, List.getElem?_range hi]

/-- The last block of the spelled-out partition. -/
theorem split_getElem?_last {α : Type} (f : Nat → List α) (x : List α) (n : Nat) :
    (((List.range n).map f) ++ [x])[n]? = some x := by
  rw [List.getElem?_append_right (by simp)]
  simp

/-- C1. For every command sequence of length `L` and every thread count `T ≥ 1`, the
partition loop of `run_test` builds `T` blocks, block `i < T - 1` holding the elements
`[i * (L / T), (i + 1) * (L / T))` and block `T - 1` the elements `[(T - 1) * (L / T), L)`;
concatenated in index order they are the original sequence, and their lengths add up to
`L`. -/
theorem partition_complete (all_commands : List String) (num_threads : Nat)
    (hT : 1 ≤ num_threads) :
    ∃ thread_commands : List (List String),
      partition_blocks all_commands num_threads = some thread_commands
        ∧ thread_commands.length = num_threads
        ∧ (∀ i, i < num_threads - 1 → thread_commands[i]? = some
            ((all_commands.drop (i * (all_commands.length / num_threads))).take
              ((i + 1) * (all_commands.length / num_threads)
                - i * (all_commands.length / num_threads))))
        ∧ thread_commands[num_threads - 1]? = some
            ((all_commands.drop ((num_threads - 1) * (all_commands.length / num_threads))).take
              (all_commands.length
                - (num_threads - 1) * (all_commands.length / num_threads)))
        ∧ thread_commands.flatten = all_commands
        ∧ (thread_commands.map List.length).sum = all_commands.length := by
  refine ⟨_, partition_blocks_split all_commands num_threads hT, ?_, ?_, ?_, ?_, ?_⟩
  · simp
    omega
  · intro i hi
    rw [split_getElem?_lt _ _ _ _ hi, Nat.succ_mul, Nat.add_sub_cancel_left]
  · rw [split_getElem?_last, List.take_of_length_le]
    simp
  · rw [List.flatten_append, flatten_range_take]
    simp
  · rw [← List.length_flatten, List.flatten_append, flatten_range_take]
    simp

/-- Witness of C1: seven commands on three threads. -/
theorem partition_complete_witness :
    partition_blocks ["a", "b", "c", "d", "e", "f", "g"] 3
        = some [["a", "b"], ["c", "d"], ["e", "f", "g"]]
      ∧ ∃ thread_commands : List (List String),
      partition_blocks ["a", "b", "c", "d", "e", "f", "g"] 3 = some thread_commands
        ∧ thread_commands.length = 3
        ∧ (∀ i, i < 3 - 1 → thread_commands[i]? = some
            ((["a", "b", "c", "d", "e", "f", "g"].drop
              (i * (["a", "b", "c", "d", "e", "f", "g"].length / 3))).take
              ((i + 1) * (["a", "b", "c", "d", "e", "f", "g"].length / 3)
                - i * (["a", "b", "c", "d", "e", "f", "g"].length / 3))))
        ∧ thread_commands[3 - 1]? = some
            ((["a", "b", "c", "d", "e", "f", "g"].drop
              ((3 - 1) * (["a", "b", "c", "d", "e", "f", "g"].length / 3))).take
              (["a", "b", "c", "d", "e", "f", "g"].length
                - (3 - 1) * (["a", "b", "c", "d", "e", "f", "g"].length / 3)))
        ∧ thread_commands.flatten = ["a", "b", "c", "d", "e", "f", "g"]
        ∧ (thread_commands.map List.length).sum
            = ["a", "b", "c", "d", "e", "f", "g"].length :=
  ⟨by decide, partition_complete ["a", "b", "c", "d", "e", "f", "g"] 3 (by decide)⟩

/-- C2. For every sequence of length `L` and every thread count `T ≥ 1`, each of the
first `T - 1` blocks of the partition loop has exactly `L / T` elements and the last one
exactly `L - (T - 1) * (L / T)`, which is at least `L / T` and more when `T` does not
divide `L`; when `L < T` the first `T - 1` blocks are empty and the last holds the whole
sequence; and in every pass the start offset is at most the end offset, which is at most
`L`. -/
theorem partition_sizes (all_commands : List String) (num_threads : Nat)
    (hT : 1 ≤ num_threads) :
    ∃ thread_commands : List (List String),
      partition_blocks all_commands num_threads = some thread_commands
        ∧ thread_commands.length = num_threads
        ∧ (∀ i, i < num_threads - 1 →
            (thread_commands[i]?).map List.length
              = some (all_commands.length / num_threads))
        ∧ (thread_commands[num_threads - 1]?).map List.length
            = some (all_commands.length
                - (num_threads - 1) * (all_commands.length / num_threads))
        ∧ all_commands.length / num_threads
            ≤ all_commands.length - (num_threads - 1) * (all_commands.length / num_threads)
        ∧ (¬ num_threads ∣ all_commands.length →
            all_commands.length / num_threads
              < all_commands.length
                - (num_threads - 1) * (all_commands.length / num_threads))
        ∧ (all_commands.length < num_threads →
            (∀ i, i < num_threads - 1 → thread_commands[i]? = some [])
              ∧ thread_commands[num_threads - 1]? = some all_commands)
        ∧ (∀ i, i < num_threads →
            (block_bounds all_commands.length num_threads i).1
                ≤ (block_bounds all_commands.length num_threads i).2
              ∧ (block_bounds all_commands.length num_threads i).2
                ≤ all_commands.length) := by
  have hlast := pred_mul_div_le all_commands.length num_threads
  have hsum := pred_mul_add (all_commands.length / num_threads) num_threads hT
  have hdm := Nat.div_add_mod all_commands.length num_threads
  refine ⟨_, partition_blocks_split all_commands num_threads hT, ?_, ?_, ?_, ?_, ?_, ?_, ?_⟩
  · simp
    omega
  · intro i hi
    rw [split_getElem?_lt _ _ _ _ hi]
    have hle : (i + 1) * (all_commands.length / num_threads)
        ≤ (num_threads - 1) * (all_commands.length / num_threads) :=
      Nat.mul_le_mul_right _ (by omega)
    rw [Nat.succ_mul] at hle
    simp only [Option.map_some', List.length_take, List.length_drop, Option.some.injEq]
    generalize all_commands.length / num_threads = q at hle hlast
    generalize (num_threads - 1) * q = m at hle hlast
    generalize i * q = a at hle
    omega
  · rw [split_getElem?_last]
    simp
  · generalize all_commands.length / num_threads = q at hsum hdm hlast
    generalize (num_threads - 1) * q = m at hsum hlast
    generalize num_threads * q = p at hsum hdm
    omega
  · intro hnd
    have hmod : all_commands.length % num_threads ≠ 0 :=
      fun h0 => hnd (Nat.dvd_of_mod_eq_zero h0)
    generalize all_commands.length % num_threads = r at hmod hdm
    generalize all_commands.length / num_threads = q at hsum hdm hlast
    generalize (num_threads - 1) * q = m at hsum hlast
    generalize num_threads * q = p at hsum hdm
    omega
  · intro hlt
    have hq : all_commands.length / num_threads = 0 := Nat.div_eq_of_lt hlt
    refine ⟨fun i hi => ?_, ?_⟩
    · rw [split_getElem?_lt _ _ _ _ hi, hq]
      simp
    · rw [split_getElem?_last, hq]
      simp
  · intro i hi
    exact block_bounds_valid all_commands.length num_threads i hi

/-- Witness of C2: two commands on three threads, so that the first two blocks are
empty. -/
theorem partition_sizes_witness :
    partition_blocks ["read 0", "string"] 3 = some [[], [], ["read 0", "string"]]
      ∧ ∃ thread_commands : List (List String),
      partition_blocks ["read 0", "string"] 3 = some thread_commands
        ∧ thread_commands.length = 3
        ∧ (∀ i, i < 3 - 1 →
            (thread_commands[i]?).map List.length = some (["read 0", "string"].length / 3))
        ∧ (thread_commands[3 - 1]?).map List.length
            = some (["read 0", "string"].length
                - (3 - 1) * (["read 0", "string"].length / 3))
        ∧ ["read 0", "string"].length / 3
            ≤ ["read 0", "string"].length - (3 - 1) * (["read 0", "string"].length / 3)
        ∧ (¬ 3 ∣ ["read 0", "string"].length →
            ["read 0", "string"].length / 3
              < ["read 0", "string"].length
                - (3 - 1) * (["read 0", "string"].length / 3))
        ∧ (["read 0", "string"].length < 3 →
            (∀ i, i < 3 - 1 → thread_commands[i]? = some [])
              ∧ thread_commands[3 - 1]? = some ["read 0", "string"])
        ∧ (∀ i, i < 3 →
            (block_bounds ["read 0", "string"].length 3 i).1
                ≤ (block_bounds ["read 0", "string"].length 3 i).2
              ∧ (block_bounds ["read 0", "string"].length 3 i).2
                ≤ ["read 0", "string"].length) :=
  ⟨by decide, partition_sizes ["read 0", "string"] 3 (by decide)⟩

/-! ## Theorems: the workload file -/

/-- The non-empty lines of a text. -/
theorem text_lines_nil : (text_lines []).filter (fun l => !l.isEmpty) = [] := by
  simp [text_lines, List.splitOn, List.splitOnP_nil]

/-- A successful `getline` returns the first line of the text, leaves a text whose
non-empty lines are the remaining non-empty lines, and consumes at least one character. -/
theorem getline_some (text line rest : List Char) (h : getline text = some (line, rest)) :
    (∃ tail, text_lines text = line :: tail
        ∧ tail.filter (fun l => !l.isEmpty) = (text_lines rest).filter (fun l => !l.isEmpty))
      ∧ rest.length < text.length := by
  induction text generalizing line rest with
  | nil => simp [getline] at h
  | cons c cs ih =>
    rw [getline] at h
    by_cases hc : c = '\n'
    · rw [if_pos hc] at h
      obtain ⟨rfl, rfl⟩ := Prod.mk.inj (Option.some.inj h)
      refine ⟨⟨text_lines cs, ?_, rfl⟩, by simp⟩
      simp [text_lines, List.splitOn, List.splitOnP_cons, hc]
    · rw [if_neg hc] at h
      cases hg : getline cs with
      | none =>
        rw [hg] at h
        obtain ⟨rfl, rfl⟩ := Prod.mk.inj (Option.some.inj h)
        have hcs : cs = [] := by
          cases cs with
          | nil => rfl
          | cons d ds =>
            rw [getline] at hg
            split at hg
            · simp at hg
            · split at hg <;> simp at hg
        subst hcs
        refine ⟨⟨[], ?_, ?_⟩, by simp⟩
        · simp [text_lines, List.splitOn, List.splitOnP_cons, List.splitOnP_nil, hc]
        · simp [text_lines_nil]
      | some p =>
        obtain ⟨l, r⟩ := p
        rw [hg] at h
        obtain ⟨rfl, rfl⟩ := Prod.mk.inj (Option.some.inj h)
        obtain ⟨⟨tail, htl, hfilter⟩, hlen⟩ := ih l r hg
        refine ⟨⟨tail, ?_, hfilter⟩, by simp; omega⟩
        simp only [text_lines, List.splitOn] at htl ⊢
        rw [List.splitOnP_cons, htl]
        simp [hc]

/-- The stream fails exactly at the end of the file. -/
theorem getline_none (text : List Char) (h : getline text = none) : text = [] := by
  cases text with
  | nil => rfl
  | cons d ds =>
    rw [getline] at h
    split at h
    · simp at h
    · split at h <;> simp at h

/-- The line loop, given more fuel than the file has characters, appends the non-empty
lines of the file to `commands`. -/
theorem load_loop_eq (fuel : Nat) (file : List Char) (cmds : List String)
    (hfuel : file.length < fuel) :
    load_loop fuel file cmds
      = some (cmds ++ ((text_lines file).filter (fun l => !l.isEmpty)).map String.mk) := by
  induction fuel generalizing file cmds with
  | zero => omega
  | succ fuel ih =>
    rw [load_loop]
    cases hg : getline file with
    | none =>
      have := getline_none file hg
      subst this
      simp [text_lines_nil]
    | some p =>
      obtain ⟨line, rest⟩ := p
      obtain ⟨⟨tail, htl, hfilter⟩, hlen⟩ := getline_some file line rest hg
      simp only
      rw [htl, List.filter_cons, hfilter]
      by_cases hline : line.isEmpty = true
      · rw [if_pos hline, ih rest cmds (by omega)]
        simp [hline]
      · rw [if_neg hline, ih rest _ (by omega)]
        simp [hline]

/-- No command token is empty or holds a newline. -/
theorem commands_get_clean (d : Fin 5) :
    (commands.get d).data ≠ [] ∧ '\n' ∉ (commands.get d).data := by
  revert d
  decide

/-- On a line without newline that is followed by a newline, `getline` returns the line
and leaves what follows the newline. -/
theorem getline_append (line rest : List Char) (h : '\n' ∉ line) :
    getline (line ++ '\n' :: rest) = some (line, rest) := by
  induction line with
  | nil => simp [getline]
  | cons c cs ih =>
    have hc : c ≠ '\n' := fun e => h (by simp [e])
    have hcs : '\n' ∉ cs := fun e => h (List.mem_cons_of_mem c e)
    rw [List.cons_append, getline, if_neg hc, ih hcs]

/-- The text written by the generation loop: every token followed by a newline. -/
theorem foldl_generate_body (draws : List (Fin 5)) (file : List Char) :
    draws.foldl generate_body file
      = file ++ (draws.map fun d => (commands.get d).data ++ ['\n']).flatten := by
  induction draws generalizing file with
  | nil => simp
  | cons d ds ih =>
    rw [List.foldl_cons, ih]
    simp [generate_body]

/-- The line loop on a generated text, given more fuel than the text has characters,
appends the drawn tokens to `commands`. -/
theorem load_loop_generated (draws : List (Fin 5)) (fuel : Nat) (cmds : List String)
    (hfuel : (draws.map fun d => (commands.get d).data ++ ['\n']).flatten.length < fuel) :
    load_loop fuel (draws.map fun d => (commands.get d).data ++ ['\n']).flatten cmds
      = some (cmds ++ draws.map commands.get) := by
  induction draws generalizing fuel cmds with
  | nil =>
    cases fuel with
    | zero => simp at hfuel
    | succ fuel => simp [load_loop, getline]
  | cons d ds ih =>
    cases fuel with
    | zero => simp at hfuel
    | succ fuel =>
      obtain ⟨hne, hnl⟩ := commands_get_clean d
      have hempty : (commands.get d).data.isEmpty = false := by
        cases hd : (commands.get d).data with
        | nil => exact absurd hd hne
        | cons _ _ => rfl
      simp only [List.map_cons, List.flatten_cons, List.append_assoc, List.singleton_append,
        List.length_append, List.length_cons] at hfuel ⊢
      rw [load_loop, getline_append _ _ hnl]
      simp only [hempty, Bool.false_eq_true, if_false]
      rw [ih fuel _ (by omega)]
      simp

/-- Every list of command tokens is the list of tokens of some sequence of draws. -/
theorem exists_draws (labels : List String) (h : ∀ l ∈ labels, l ∈ commands) :
    ∃ draws : List (Fin 5), draws.map commands.get = labels := by
  induction labels with
  | nil => exact ⟨[], rfl⟩
  | cons l ls ih =>
    obtain ⟨ds, hds⟩ := ih (fun x hx => h x (List.mem_cons_of_mem l hx))
    obtain ⟨d, hd⟩ := List.mem_iff_get.mp (h l (List.mem_cons_self l ls))
    exact ⟨d :: ds, by rw [List.map_cons, hd, hds]⟩

/-- C6. For every sequence of draws, the text written by the loop of
`generate_command_file` (each token followed by a newline) is read back by the line loop
of `load_commands` as exactly the drawn tokens in order; every sequence of the five
tokens, of any length, is the token sequence of some draws; and for any file text the line
loop returns its lines in order with every empty line removed. -/
theorem workload_round_trip :
    (∀ draws : List (Fin 5),
        load_lines (generate_command_text draws) = some (draws.map commands.get))
      ∧ (∀ labels : List String, (∀ l ∈ labels, l ∈ commands) →
          ∃ draws : List (Fin 5), draws.map commands.get = labels
            ∧ load_lines (generate_command_text draws) = some labels)
      ∧ (∀ text : List Char,
          load_lines text
            = some (((text_lines text).filter (fun l => !l.isEmpty)).map String.mk)) := by
  have hdraws : ∀ draws : List (Fin 5),
      load_lines (generate_command_text draws) = some (draws.map commands.get) := by
    intro draws
    rw [load_lines, generate_command_text, foldl_generate_body, List.nil_append,
      load_loop_generated draws _ [] (Nat.lt_succ_self _)]
    simp
  refine ⟨hdraws, fun labels h => ?_, fun text => ?_⟩
  · obtain ⟨draws, hd⟩ := exists_draws labels h
    exact ⟨draws, hd, hd ▸ hdraws draws⟩
  · rw [load_lines, load_loop_eq _ text [] (Nat.lt_succ_self _)]
    simp

/-- Witness of C6: the sequence `"string"`, `"read 0"`, `"string"`. -/
theorem workload_round_trip_witness :
    generate_command_text [4, 0, 4] = "string\nread 0\nstring\n".data
      ∧ load_lines "string\nread 0\nstring\n".data = some ["string", "read 0", "string"]
      ∧ load_lines "\n\nread 0\nxx\n\nlast".data = some ["read 0", "xx", "last"]
      ∧ ∃ draws : List (Fin 5), draws.map commands.get = ["string", "read 0", "string"]
        ∧ load_lines (generate_command_text draws) = some ["string", "read 0", "string"] :=
  ⟨by decide, by decide, by decide,
    workload_round_trip.2.1 ["string", "read 0", "string"] (by decide)⟩

/-! ## Theorems: the harness -/

/-- What recording an action changes. -/
theorem emit_effect (w : World) (e : Event) :
    (w.emit e).fs = w.fs
      ∧ (w.emit e).clock = w.clock
      ∧ (w.emit e).clock_reads = w.clock_reads
      ∧ (w.emit e).trials = w.trials + (if e = Event.construct_structure then 1 else 0)
      ∧ (w.emit e).threads_started
          = w.threads_started + (match e with | Event.thread_start _ _ => 1 | _ => 0)
      ∧ (w.emit e).open_failures
          = w.open_failures + (match e with | Event.cerr_open_failed _ => 1 | _ => 0) := by
  refine ⟨rfl, rfl, rfl, ?_, ?_, ?_⟩
  · simp only [World.trials, World.emit, List.count_append, List.count_singleton]
    by_cases h : e = Event.construct_structure <;> simp [h]
  · simp only [World.threads_started, World.emit, List.countP_append]
    cases e <;> simp [List.countP_cons]
  · simp only [World.open_failures, World.emit, List.countP_append]
    cases e <;> simp [List.countP_cons]

/-- Reading the clock changes only the number of readings. -/
theorem now_effect (w : World) :
    w.now.2.fs = w.fs ∧ w.now.2.clock_reads = w.clock_reads + 1
      ∧ w.now.2.trials = w.trials ∧ w.now.2.threads_started = w.threads_started
      ∧ w.now.2.open_failures = w.open_failures :=
  ⟨rfl, rfl, rfl, rfl, rfl⟩

/-- Starting the threads of a trial starts one thread per block and nothing else. -/
theorem start_threads_effect (blocks : List (List String)) (i : Nat) (w : World) :
    (start_threads i blocks w).fs = w.fs
      ∧ (start_threads i blocks w).clock_reads = w.clock_reads
      ∧ (start_threads i blocks w).trials = w.trials
      ∧ (start_threads i blocks w).threads_started = w.threads_started + blocks.length
      ∧ (start_threads i blocks w).open_failures = w.open_failures := by
  induction blocks generalizing i w with
  | nil => simp [start_threads]
  | cons b bs ih =>
    obtain ⟨h1, h2, h3, h4, h5⟩ := ih (i + 1) (w.emit (Event.thread_start i b))
    obtain ⟨e1, _, e3, e4, e5, e6⟩ := emit_effect w (Event.thread_start i b)
    rw [start_threads, h1, h2, h3, h4, h5, e1, e3, e4, e5, e6]
    simp
    omega

/-- Joining the threads starts no thread and no trial. -/
theorem join_threads_effect (n : Nat) (w : World) :
    (join_threads n w).fs = w.fs
      ∧ (join_threads n w).clock_reads = w.clock_reads
      ∧ (join_threads n w).trials = w.trials
      ∧ (join_threads n w).threads_started = w.threads_started
      ∧ (join_threads n w).open_failures = w.open_failures := by
  unfold join_threads
  generalize List.range n = l
  induction l generalizing w with
  | nil => simp
  | cons i is ih =>
    obtain ⟨h1, h2, h3, h4, h5⟩ := ih (w.emit (Event.thread_join i))
    obtain ⟨e1, _, e3, e4, e5, e6⟩ := emit_effect w (Event.thread_join i)
    rw [List.foldl_cons, h1, h2, h3, h4, h5, e1, e3, e4, e5, e6]
    simp

/-- One trial constructs one structure, reads the clock twice and starts one thread per
block. -/
theorem run_trial_effect (blocks : List (List String)) (total : ℚ) (w : World) :
    (run_trial blocks total w).2.fs = w.fs
      ∧ (run_trial blocks total w).2.clock_reads = w.clock_reads + 2
      ∧ (run_trial blocks total w).2.trials = w.trials + 1
      ∧ (run_trial blocks total w).2.threads_started = w.threads_started + blocks.length
      ∧ (run_trial blocks total w).2.open_failures = w.open_failures := by
  obtain ⟨e1, _, e3, e4, e5, e6⟩ := emit_effect w Event.construct_structure
  obtain ⟨n1, n2, n3, n4, n5⟩ := now_effect (w.emit Event.construct_structure)
  obtain ⟨s1, s2, s3, s4, s5⟩ :=
    start_threads_effect blocks 0 (w.emit Event.construct_structure).now.2
  obtain ⟨j1, j2, j3, j4, j5⟩ := join_threads_effect blocks.length
    (start_threads 0 blocks (w.emit Event.construct_structure).now.2)
  obtain ⟨m1, m2, m3, m4, m5⟩ := now_effect (join_threads blocks.length
    (start_threads 0 blocks (w.emit Event.construct_structure).now.2))
  simp only [run_trial]
  rw [m1, m2, m3, m4, m5, j1, j2, j3, j4, j5, s1, s2, s3, s4, s5, n1, n2, n3, n4, n5,
    e1, e3, e4, e5, e6]
  simp

/-- The trial loop runs `runs` trials. -/
theorem run_trials_effect (blocks : List (List String)) (runs : Nat) (total : ℚ)
    (w : World) :
    (run_trials blocks runs total w).2.fs = w.fs
      ∧ (run_trials blocks runs total w).2.clock_reads = w.clock_reads + 2 * runs
      ∧ (run_trials blocks runs total w).2.trials = w.trials + runs
      ∧ (run_trials blocks runs total w).2.threads_started
          = w.threads_started + runs * blocks.length
      ∧ (run_trials blocks runs total w).2.open_failures = w.open_failures := by
  induction runs generalizing total w with
  | zero => simp [run_trials]
  | succ runs ih =>
    obtain ⟨h1, h2, h3, h4, h5⟩ :=
      ih (run_trial blocks total w).1 (run_trial blocks total w).2
    obtain ⟨t1, t2, t3, t4, t5⟩ := run_trial_effect blocks total w
    simp only [run_trials]
    refine ⟨by rw [h1, t1], by rw [h2, t2]; omega, by rw [h3, t3]; omega, ?_, by rw [h5, t5]⟩
    rw [h4, t4, Nat.succ_mul]
    omega

/-- A file that cannot be opened: `load_commands` reports it, returns `false` and leaves
`commands` as it was. -/
theorem load_commands_unavailable (w : World) (filename : String) (cmds : List String)
    (h : w.fs filename = none) :
    load_commands w filename cmds
      = some (false, cmds, w.emit (Event.cerr_open_failed filename)) := by
  simp [load_commands, h]

/-- A file that can be opened: `load_commands` returns `true` with its non-empty lines. -/
theorem load_commands_available (w : World) (filename : String) (cmds : List String)
    (text : List Char) (h : w.fs filename = some text) :
    load_commands w filename cmds
      = some (true, ((text_lines text).filter (fun l => !l.isEmpty)).map String.mk, w) := by
  simp [load_commands, h, load_lines, load_loop_eq _ text [] (Nat.lt_succ_self _)]

/-- A file that cannot be opened: `run_test` returns -1 right after the report. -/
theorem run_test_unavailable (w : World) (filename : String) (num_threads : Nat)
    (h : w.fs filename = none) :
    run_test w filename num_threads
      = some (-1, w.emit (Event.cerr_open_failed filename)) := by
  simp [run_test, load_commands_unavailable w filename [] h]

/-- A file that can be opened, with at least one thread: `run_test` returns after `RUNS`
trials of `num_threads` threads each. -/
theorem run_test_available (w : World) (filename : String) (num_threads : Nat)
    (text : List Char) (h : w.fs filename = some text) (hT : 1 ≤ num_threads) :
    ∃ (time_ms : ℚ) (w' : World),
      run_test w filename num_threads = some (time_ms, w')
        ∧ w'.fs = w.fs
        ∧ w'.clock_reads = w.clock_reads + 2 * RUNS
        ∧ w'.trials = w.trials + RUNS
        ∧ w'.threads_started = w.threads_started + RUNS * num_threads
        ∧ w'.open_failures = w.open_failures := by
  obtain ⟨blocks, hpart, hlen⟩ := partition_blocks_length
    (((text_lines text).filter (fun l => !l.isEmpty)).map String.mk) num_threads hT
  obtain ⟨r1, r2, r3, r4, r5⟩ := run_trials_effect blocks RUNS 0 w
  refine ⟨(run_trials blocks RUNS 0 w).1 / RUNS, (run_trials blocks RUNS 0 w).2,
    ?_, r1, r2, r3, ?_, r5⟩
  · simp only [run_test, load_commands_available w filename [] text h, hpart]
  · rw [r4, hlen]

/-- The inner loop of the sweep on a file that cannot be opened: every entry of the row
is -1, an open failure is reported for every thread count, and no trial is run. -/
theorem sweep_thread_counts_unavailable (filename : String) (counts : List Nat) (w : World)
    (h : w.fs filename = none) :
    ∃ w' : World,
      sweep_thread_counts filename counts w = some (List.replicate counts.length (-1), w')
        ∧ w'.fs = w.fs
        ∧ w'.clock_reads = w.clock_reads
        ∧ w'.trials = w.trials
        ∧ w'.threads_started = w.threads_started
        ∧ w'.open_failures = w.open_failures + counts.length := by
  induction counts generalizing w with
  | nil => exact ⟨w, rfl, rfl, rfl, rfl, rfl, rfl⟩
  | cons t ts ih =>
    obtain ⟨_, _, a3, a4, a5, a6⟩ := emit_effect w (Event.cerr_open_failed filename)
    obtain ⟨b1, _, b3, b4, b5, b6⟩ := emit_effect (w.emit (Event.cerr_open_failed filename))
      (Event.cout_time filename t (-1))
    obtain ⟨w', hs, h1, h2, h3, h4, h5⟩ :=
      ih ((w.emit (Event.cerr_open_failed filename)).emit (Event.cout_time filename t (-1)))
        (by rw [b1]; exact h)
    refine ⟨w', ?_, ?_, ?_, ?_, ?_, ?_⟩
    · simp only [sweep_thread_counts, run_test_unavailable w filename t h, hs,
        List.length_cons, List.replicate_succ]
    · rw [h1]; rfl
    · rw [h2, b3, a3]
    · rw [h3, b4, a4]; simp
    · rw [h4, b5, a5]; simp
    · rw [h5, b6, a6]; simp; omega

/-- The inner loop of the sweep on a file that can be opened: every thread count gets its
`RUNS` trials. -/
theorem sweep_thread_counts_available (filename : String) (counts : List Nat) (w : World)
    (text : List Char) (h : w.fs filename = some text) (hcounts : ∀ t ∈ counts, 1 ≤ t) :
    ∃ (row : List ℚ) (w' : World),
      sweep_thread_counts filename counts w = some (row, w')
        ∧ row.length = counts.length
        ∧ w'.fs = w.fs
        ∧ w'.clock_reads = w.clock_reads + 2 * RUNS * counts.length
        ∧ w'.trials = w.trials + RUNS * counts.length
        ∧ w'.threads_started = w.threads_started + RUNS * counts.sum
        ∧ w'.open_failures = w.open_failures := by
  induction counts generalizing w with
  | nil => exact ⟨[], w, rfl, rfl, rfl, rfl, rfl, rfl, rfl⟩
  | cons t ts ih =>
    obtain ⟨time_ms, w1, hrun, a1, a2, a3, a4, a5⟩ :=
      run_test_available w filename t text h (hcounts t (List.mem_cons_self t ts))
    obtain ⟨b1, _, b3, b4, b5, b6⟩ := emit_effect w1 (Event.cout_time filename t time_ms)
    obtain ⟨row, w', hs, hlen, h1, h2, h3, h4, h5⟩ :=
      ih (w1.emit (Event.cout_time filename t time_ms)) (by rw [b1, a1]; exact h)
        (fun x hx => hcounts x (List.mem_cons_of_mem t hx))
    refine ⟨time_ms :: row, w', ?_, ?_, ?_, ?_, ?_, ?_, ?_⟩
    · simp only [sweep_thread_counts, hrun, hs]
    · simp [hlen]
    · rw [h1, b1, a1]
    · rw [h2, b3, a2, List.length_cons]; ring
    · rw [h3, b4, a3, List.length_cons]; simp; ring
    · rw [h4, b5, a4, List.sum_cons]; simp; ring
    · rw [h5, b6, a5]; simp

/-- The sweep over any list of files and any list of positive thread counts runs to its
end: the rows of the files that cannot be opened hold -1 only, and every other file gets
`RUNS` trials for every thread count. -/
theorem sweep_files_effect (counts : List Nat) (hcounts : ∀ t ∈ counts, 1 ≤ t)
    (names : List String) (w : World) :
    ∃ (rows : List (List ℚ)) (w' : World),
      sweep_files counts names w = some (rows, w')
        ∧ rows.length = names.length
        ∧ (∀ row ∈ rows, row.length = counts.length)
        ∧ w'.fs = w.fs
        ∧ (∀ (i : Nat) (f : String), names[i]? = some f → w.fs f = none →
            rows[i]? = some (List.replicate counts.length (-1 : ℚ)))
        ∧ w'.trials = w.trials
            + RUNS * counts.length * (names.filter fun f => (w.fs f).isSome).length
        ∧ w'.threads_started = w.threads_started
            + RUNS * counts.sum * (names.filter fun f => (w.fs f).isSome).length
        ∧ w'.open_failures = w.open_failures
            + counts.length * (names.filter fun f => (w.fs f).isNone).length := by
  induction names generalizing w with
  | nil => exact ⟨[], w, rfl, rfl, by simp, rfl, by simp, by simp, by simp, by simp⟩
  | cons f fs ih =>
    cases hf : w.fs f with
    | none =>
      obtain ⟨w1, hs, a1, _, a3, a4, a5⟩ := sweep_thread_counts_unavailable f counts w hf
      obtain ⟨rows, w', hr, hlen, hrow, b1, bfail, b3, b4, b5⟩ := ih w1
      rw [a1] at bfail b3 b4 b5
      refine ⟨List.replicate counts.length (-1) :: rows, w', ?_, ?_, ?_, ?_, ?_, ?_, ?_, ?_⟩
      · simp only [sweep_files, hs, hr]
      · simp [hlen]
      · intro row hmem
        rcases List.mem_cons.mp hmem with rfl | hmem
        · simp
        · exact hrow row hmem
      · rw [b1, a1]
      · intro i g hi hg
        cases i with
        | zero => simp
        | succ i =>
          simp only [List.getElem?_cons_succ] at hi ⊢
          exact bfail i g hi hg
      · rw [b3, a3, List.filter_cons]; simp [hf]
      · rw [b4, a4, List.filter_cons]; simp [hf]
      · rw [b5, a5, List.filter_cons]; simp [hf]; ring
    | some text =>
      obtain ⟨row, w1, hs, hrl, a1, _, a3, a4, a5⟩ :=
        sweep_thread_counts_available f counts w text hf hcounts
      obtain ⟨rows, w', hr, hlen, hrow, b1, bfail, b3, b4, b5⟩ := ih w1
      rw [a1] at bfail b3 b4 b5
      refine ⟨row :: rows, w', ?_, ?_, ?_, ?_, ?_, ?_, ?_, ?_⟩
      · simp only [sweep_files, hs, hr]
      · simp [hlen]
      · intro r hmem
        rcases List.mem_cons.mp hmem with rfl | hmem
        · exact hrl
        · exact hrow r hmem
      · rw [b1, a1]
      · intro i g hi hg
        cases i with
        | zero =>
          simp only [List.getElem?_cons_zero, Option.some.injEq] at hi
          subst hi
          rw [hf] at hg
          exact absurd hg (by simp)
        | succ i =>
          simp only [List.getElem?_cons_succ] at hi ⊢
          exact bfail i g hi hg
      · rw [b3, a3, List.filter_cons]; simp [hf]; ring
      · rw [b4, a4, List.filter_cons]; simp [hf]; ring
      · rw [b5, a5, List.filter_cons]; simp [hf]

/-- C8. When the workload file cannot be opened, `load_commands` reports it and returns
`false`; `run_test` then returns the sentinel -1 for every thread count, zero included,
having read no clock, constructed no structure and started no thread; and the sweep of
`main` still runs to its end: it fills all nine entries of `results`, those of the failed
file with -1, and runs `RUNS` trials for every thread count on every file that can be
opened. -/
theorem workload_unavailable (w : World) (filename : String) (h : w.fs filename = none) :
    (∀ cmds : List String, load_commands w filename cmds
        = some (false, cmds, w.emit (Event.cerr_open_failed filename)))
      ∧ (∀ num_threads : Nat, run_test w filename num_threads
          = some (-1, w.emit (Event.cerr_open_failed filename)))
      ∧ (w.emit (Event.cerr_open_failed filename)).clock_reads = w.clock_reads
      ∧ (w.emit (Event.cerr_open_failed filename)).trials = w.trials
      ∧ (w.emit (Event.cerr_open_failed filename)).threads_started = w.threads_started
      ∧ (∃ (results : List (List ℚ)) (w' : World),
          main_sweep w = some (results, w')
            ∧ results.length = 3
            ∧ (∀ row ∈ results, row.length = 3)
            ∧ (∀ i : Nat, files[i]? = some filename → results[i]? = some [(-1 : ℚ), -1, -1])
            ∧ w'.trials = w.trials
                + RUNS * thread_counts.length * (files.filter fun f => (w.fs f).isSome).length
            ∧ w'.threads_started = w.threads_started
                + RUNS * thread_counts.sum * (files.filter fun f => (w.fs f).isSome).length
            ∧ w'.open_failures = w.open_failures
                + thread_counts.length * (files.filter fun f => (w.fs f).isNone).length) := by
  obtain ⟨_, _, e3, e4, e5, _⟩ := emit_effect w (Event.cerr_open_failed filename)
  obtain ⟨rows, w', hs, hlen, hrow, _, hfail, h3, h4, h5⟩ :=
    sweep_files_effect thread_counts (by decide) files w
  refine ⟨fun cmds => load_commands_unavailable w filename cmds h,
    fun T => run_test_unavailable w filename T h, e3, by simpa using e4, by simpa using e5,
    rows, w', hs, hlen, hrow, fun i hi => hfail i filename hi h, h3, h4, h5⟩

/-- Witness of C8: `var17.txt` in a world where only `equal.txt` can be opened; there the
first and the last row of `results` hold -1, nine trials are run and six open failures
are reported. -/
theorem workload_unavailable_witness :
    (main_sweep world_equal_only).map
        (fun r => (r.1.head?, r.1.getLast?, r.2.trials, r.2.open_failures))
        = some (some [-1, -1, -1], some [-1, -1, -1], 9, 6)
      ∧ (∀ cmds : List String, load_commands world_equal_only "var17.txt" cmds
        = some (false, cmds, world_equal_only.emit (Event.cerr_open_failed "var17.txt")))
      ∧ (∀ num_threads : Nat, run_test world_equal_only "var17.txt" num_threads
          = some (-1, world_equal_only.emit (Event.cerr_open_failed "var17.txt")))
      ∧ (world_equal_only.emit (Event.cerr_open_failed "var17.txt")).clock_reads
          = world_equal_only.clock_reads
      ∧ (world_equal_only.emit (Event.cerr_open_failed "var17.txt")).trials
          = world_equal_only.trials
      ∧ (world_equal_only.emit (Event.cerr_open_failed "var17.txt")).threads_started
          = world_equal_only.threads_started
      ∧ (∃ (results : List (List ℚ)) (w' : World),
          main_sweep world_equal_only = some (results, w')
            ∧ results.length = 3
            ∧ (∀ row ∈ results, row.length = 3)
            ∧ (∀ i : Nat, files[i]? = some "var17.txt" →
                results[i]? = some [(-1 : ℚ), -1, -1])
            ∧ w'.trials = world_equal_only.trials
                + RUNS * thread_counts.length
                  * (files.filter fun f => (world_equal_only.fs f).isSome).length
            ∧ w'.threads_started = world_equal_only.threads_started
                + RUNS * thread_counts.sum
                  * (files.filter fun f => (world_equal_only.fs f).isSome).length
            ∧ w'.open_failures = world_equal_only.open_failures
                + thread_counts.length
                  * (files.filter fun f => (world_equal_only.fs f).isNone).length) :=
  ⟨by decide, workload_unavailable world_equal_only "var17.txt" (by decide)⟩

end Lab3Mutex
